import Mathlib

/-!
Verification development for the bridge-v4-stt repository: a telephony-to-AI
bridge consisting of an STT relay (soniox-stt.js), a webhook/DTMF ingress
server (proxy_server.js), a browser-tab session pool (archive/tab-pool-manager.js),
an AI relay (elevenlabs-bridge.js), and a virtual audio sink (VirtualAudioSource).

Each JavaScript component is shallowly embedded as executable Lean definitions:
mutable object fields become structure fields, methods become state-passing
functions, and the externally observable effects (emitted transcripts, messages
sent over a socket) become explicit return values.
-/

namespace BridgeV4

/-- JS `String.prototype.trim` on a character list: strip leading and trailing
whitespace. -/
def trimList (cs : List Char) : List Char :=
  ((cs.dropWhile Char.isWhitespace).reverse.dropWhile Char.isWhitespace).reverse

/-- JS `String.prototype.trim` lifted to `String`. -/
def jsTrim (s : String) : String := String.mk (trimList s.data)

/-- JS `array.slice(-n)` / `string.slice(-n)`: the last `n` elements
(all of them when fewer than `n` are present). -/
def lastN (n : Nat) (l : List Char) : List Char := l.drop (l.length - n)

/-! ## STT Relay (src/soniox-stt.js, `SonioxSTT.handleMessage`)

State: `currentTranscript` (accumulated final tokens) and `partialTranscript`
(current non-final tokens).  A message carries a list of tokens, each with a
`text` and an `is_final` flag; the token text `"<end>"` is the endpoint marker. -/

/-- One Soniox token: `{text, is_final}`. -/
structure Token where
  text : String
  is_final : Bool
deriving DecidableEq, Repr

/-- The transcript-buffer state of `SonioxSTT`. -/
structure STTState where
  currentTranscript : String
  partialTranscript : String
deriving DecidableEq, Repr

/-- The token-scanning loop of `handleMessage`: concatenated final text,
concatenated non-final text, and whether an `"<end>"` marker occurred.
The marker itself is skipped (`continue`) before the `is_final` test. -/
def scanTokens (tokens : List Token) : String × String × Bool :=
  tokens.foldl
    (fun acc tok =>
      if tok.text = "<end>" then (acc.1, acc.2.1, true)
      else if tok.is_final then (acc.1 ++ tok.text, acc.2.1, acc.2.2)
      else (acc.1, acc.2.1 ++ tok.text, acc.2.2))
    ("", "", false)

/-- `SonioxSTT.handleMessage` on a token batch.  Returns the new buffer state,
the partial update passed to `onPartialTranscript` (if any), and the completed
transcript passed to `onTranscript` (if any).

Mirrors the source: final text is appended to `currentTranscript`, the batch's
non-final text replaces `partialTranscript`, a partial update
`currentTranscript + partialText` is emitted when non-empty, and when an
endpoint marker was seen *and* `currentTranscript.trim()` is truthy the trimmed
transcript is emitted and both fields are reset. -/
def handleTokens (s : STTState) (tokens : List Token) :
    STTState × Option String × Option String :=
  let scanned := scanTokens tokens
  let finalText := scanned.1
  let partialText := scanned.2.1
  let hasEndpoint := scanned.2.2
  let cur := if finalText ≠ "" then s.currentTranscript ++ finalText
             else s.currentTranscript
  let fullPartial := cur ++ partialText
  let partialUpdate := if fullPartial ≠ "" then some fullPartial else none
  if hasEndpoint ∧ jsTrim cur ≠ "" then
    (⟨"", ""⟩, partialUpdate, some (jsTrim cur))
  else
    (⟨cur, partialText⟩, partialUpdate, none)

/-- Feed a sequence of token batches, collecting every completed transcript
emitted through `onTranscript`, in order. -/
def runBatches (s : STTState) (batches : List (List Token)) :
    STTState × List String :=
  batches.foldl
    (fun acc batch =>
      let step := handleTokens acc.1 batch
      (step.1, acc.2 ++ (step.2.2.map (fun t => [t])).getD []))
    (s, [])

/-- The endpoint-marker batch `[endpoint]`: a single `"<end>"` token. -/
def endpointBatch : List Token := [⟨"<end>", true⟩]

/-- The token batches of the endpoint-flush scenario:
`[{"Hello", final=false}]`, `[{"Hello", final=true}]`, `[{"world", final=true}]`,
`[endpoint]`. -/
def helloBatches : List (List Token) :=
  [[⟨"Hello", false⟩], [⟨"Hello", true⟩], [⟨"world", true⟩], endpointBatch]

/-! ## Swedish SSN validation and DTMF accumulator
(src/proxy_server.js, `validateSwedishSSN`, `isValidSwedishSSN`,
`handleNotifyEvent`'s dtmf branch) -/

/-- `parseInt` of a single digit character. -/
def digitVal (c : Char) : Nat := c.toNat - 48

/-- The Luhn doubling adjustment: `digit *= 2; if (digit > 9) digit -= 9`. -/
def luhnAdjust (d : Nat) : Nat := if d > 9 then d - 9 else d

/-- The checksum loop of `isValidSwedishSSN`: over `i = 0..8`, double the digit
at even `i` (subtracting 9 when above 9) and sum. -/
def luhnSum (cs : List Char) : Nat :=
  (List.range 9).foldl
    (fun sum i =>
      let digit := digitVal (cs.getD i ' ')
      sum + (if i % 2 = 0 then luhnAdjust (2 * digit) else digit))
    0

/-- `isValidSwedishSSN(ssn10)`: exactly 10 decimal digits, month `1..12`,
day `1..31`, and the Luhn check digit `(10 - sum % 10) % 10` equal to the
last digit. -/
def isValidSwedishSSN (ssn10 : String) : Bool :=
  let cs := ssn10.data
  if ¬ (cs.length = 10 ∧ cs.all Char.isDigit) then false
  else
    let mm := 10 * digitVal (cs.getD 2 ' ') + digitVal (cs.getD 3 ' ')
    let dd := 10 * digitVal (cs.getD 4 ' ') + digitVal (cs.getD 5 ' ')
    if mm < 1 ∨ mm > 12 then false
    else if dd < 1 ∨ dd > 31 then false
    else decide ((10 - luhnSum cs % 10) % 10 = digitVal (cs.getD 9 ' '))

/-- `validateSwedishSSN(digits)`: try the last 10 digits as a short-year SSN
(prefixing the century by the pivot rule `yy < 30 → "20", else "19"`), then
the last 12 digits as a full-year SSN (validating their last 10). -/
def validateSwedishSSN (digits : String) : Option String :=
  let cs := digits.data
  if cs.length ≥ 10 ∧ isValidSwedishSSN (String.mk (lastN 10 cs)) then
    let ssn10 := lastN 10 cs
    let yy := 10 * digitVal (ssn10.getD 0 ' ') + digitVal (ssn10.getD 1 ' ')
    let century := if yy < 30 then "20" else "19"
    some (century ++ String.mk ssn10)
  else if cs.length ≥ 12 ∧ isValidSwedishSSN (String.mk ((lastN 12 cs).drop 2)) then
    some (String.mk (lastN 12 cs))
  else
    none

/-- The DTMF branch of `handleNotifyEvent` for one digit press on one call's
accumulator.  On `*`: validate `buffer.slice(-12).join('')` and clear the
buffer; on `#`: clear the buffer (routing request); otherwise push the digit.
Returns the forwarded identity string (if any) and the new accumulator. -/
def handleDtmfDigit (digit : Char) (buffer : List Char) :
    Option String × List Char :=
  if digit = '*' then
    (validateSwedishSSN (String.mk (lastN 12 buffer)), [])
  else if digit = '#' then
    (none, [])
  else
    (none, buffer ++ [digit])

/-! Claim-side restatement of the validator, worded from the spec: "validate
the last ≤12 buffered digits as a national identity number using a checksum
(Luhn-style) over a fixed-length numeric window, accounting for two acceptable
digit-count formats (short year vs. full year) and a pivot year threshold to
disambiguate century".  It is compared with the source-derived
`validateSwedishSSN` by `dtmf_star_validates_and_clears`. -/

/-- Spec wording of the 10-digit window check: ten decimal digits whose month
field lies in `1..12`, whose day field lies in `1..31`, and whose Luhn-style
weighted digit sum plus the check digit is divisible by 10. -/
def specWindowOk (cs : List Char) : Bool :=
  decide (cs.length = 10) && cs.all Char.isDigit &&
    (let ds := cs.map digitVal
     let mm := 10 * ds.getD 2 0 + ds.getD 3 0
     let dd := 10 * ds.getD 4 0 + ds.getD 5 0
     let weighted := ((ds.take 9).enum.map
       (fun p => if p.1 % 2 = 0 then luhnAdjust (2 * p.2) else p.2)).sum
     decide (1 ≤ mm ∧ mm ≤ 12) && decide (1 ≤ dd ∧ dd ≤ 31) &&
       decide ((weighted + ds.getD 9 0) % 10 = 0))

/-- Spec wording of the whole validation: try the short-year format (last 10
digits, century chosen by the pivot `yy < 30 ↦ 20xx`, otherwise `19xx`), then
the full-year format (last 12 digits, their 10-digit window checked), producing
a normalized 12-digit identity string on success. -/
def specValidateSSN (digits : String) : Option String :=
  let cs := digits.data
  if cs.length ≥ 10 ∧ specWindowOk (lastN 10 cs) then
    let w := lastN 10 cs
    let yy := 10 * digitVal (w.getD 0 ' ') + digitVal (w.getD 1 ' ')
    some ((if yy < 30 then "20" else "19") ++ String.mk w)
  else if cs.length ≥ 12 ∧ specWindowOk (lastN 10 cs) then
    some (String.mk (lastN 12 cs))
  else
    none

/-! ## Tab pool manager (src/archive/tab-pool-manager.js, `TabPoolManager`)

`this.tabs` is a JS `Map` from `tabId` to `{page, busy, callId, createdAt}`;
JS `Map`s iterate in insertion order, so it is embedded as an association
list.  The page handle and timestamps play no role in the pooling logic and
are omitted. -/

/-- One pool slot: the `busy` flag and the assigned call id. -/
structure Tab where
  busy : Bool
  callId : Option String
deriving DecidableEq, Repr

/-- The pool state: the insertion-ordered slot table and `this.nextTabId`. -/
structure PoolState where
  tabs : List (Nat × Tab)
  nextTabId : Nat
deriving DecidableEq, Repr

/-- Update the slot stored under `tid` in place (as mutating the `Map` value
object does). -/
def updateTab (tabs : List (Nat × Tab)) (tid : Nat) (f : Tab → Tab) :
    List (Nat × Tab) :=
  tabs.map (fun e => if e.1 = tid then (e.1, f e.2) else e)

/-- `createTab()`: allocate `this.nextTabId++` and insert a fresh non-busy slot
with `callId: null`.  Returns the new tab id. -/
def createTab (s : PoolState) : Nat × PoolState :=
  (s.nextTabId,
   { tabs := s.tabs ++ [(s.nextTabId, ⟨false, none⟩)],
     nextTabId := s.nextTabId + 1 })

/-- `initialize()`: create `poolSize` tabs starting from the empty pool. -/
def initializePool (poolSize : Nat) : PoolState :=
  (List.range poolSize).foldl (fun s _ => (createTab s).2) ⟨[], 0⟩

/-- `getAvailableTab()`: return the first slot with `busy == false`, marking it
busy; if none is free, create an emergency slot and mark it busy. -/
def getAvailableTab (s : PoolState) : Nat × PoolState :=
  match s.tabs.find? (fun e => !e.2.busy) with
  | some e =>
      (e.1, { s with tabs := updateTab s.tabs e.1 (fun t => { t with busy := true }) })
  | none =>
      let created := createTab s
      (created.1,
       { created.2 with
         tabs := updateTab created.2.tabs created.1 (fun t => { t with busy := true }) })

/-- `startBridge(tabId, callId)` (success path): store the call id on the slot.
The page-evaluation failure path, which releases the tab, is modelled
separately by `releaseTab`. -/
def startBridge (s : PoolState) (tid : Nat) (callId : String) : PoolState :=
  { s with tabs := updateTab s.tabs tid (fun t => { t with callId := some callId }) }

/-- `releaseTab(tabId)` (successful page reload): `busy = false`,
`callId = null`. -/
def releaseTab (s : PoolState) (tid : Nat) : PoolState :=
  { s with tabs := updateTab s.tabs tid (fun _ => ⟨false, none⟩) }

/-- `releaseTab(tabId)` when the reload fails, and the health monitor's
handling of a crashed tab: delete the slot and create a fresh one. -/
def replaceTab (s : PoolState) (tid : Nat) : PoolState :=
  (createTab { s with tabs := s.tabs.filter (fun e => e.1 ≠ tid) }).2

/-- The allocation step as the production flow performs it: `getAvailableTab()`
immediately followed by `startBridge` on the returned tab with the new call's
id. -/
def acquireStart (s : PoolState) (callId : String) : PoolState :=
  let acquired := getAvailableTab s
  startBridge acquired.2 acquired.1 callId

/-- Pool states reachable from `initialize(n)` by complete operations, pairing
each acquisition with its `startBridge` on a call id not already assigned. -/
inductive PoolReachable : PoolState → Prop
  | init (n : Nat) : PoolReachable (initializePool n)
  | create {s} : PoolReachable s → PoolReachable (createTab s).2
  | allocate {s} (callId : String) :
      PoolReachable s →
      (∀ e ∈ s.tabs, e.2.callId ≠ some callId) →
      PoolReachable (acquireStart s callId)
  | release {s} (tid : Nat) : PoolReachable s → PoolReachable (releaseTab s tid)
  | replace {s} (tid : Nat) : PoolReachable s → PoolReachable (replaceTab s tid)

/-- The claimed slot invariant: `busy == (assignedCallId != null)` for every
slot, and at most one slot assigned to any call id. -/
def PoolInv (s : PoolState) : Prop :=
  (∀ e ∈ s.tabs, e.2.busy = true ↔ e.2.callId ≠ none) ∧
  (∀ c : String, s.tabs.countP (fun e => e.2.callId = some c) ≤ 1)

/-- Bookkeeping well-formedness of the slot table: every stored tab id is below
`nextTabId` and ids are distinct. -/
def PoolWF (s : PoolState) : Prop :=
  (∀ e ∈ s.tabs, e.1 < s.nextTabId) ∧ (s.tabs.map Prod.fst).Nodup

/-! ## Webhook ingress (src/proxy_server.js, `handleWebhook`)

Module state: `processedWebhooks` (a JS `Set` of dedup keys) and
`activeBridges` (a JS `Map` from call id to the bridge record, which keeps the
caller number).  The browser/page handles, timers and HTTP plumbing are
abstracted away; the bridge-creation branch is modelled by its effect on
`activeBridges`. -/

/-- The per-call bridge record, keeping the stored caller number. -/
structure BridgeRec where
  callerNumber : String
deriving DecidableEq, Repr

/-- The webhook-relevant server state. -/
structure ServerState where
  processedWebhooks : List String
  activeBridges : List (String × BridgeRec)
deriving DecidableEq, Repr

/-- An inbound-call webhook payload: `{id, number: {caller, ...}, ...}`. -/
structure Payload where
  id : String
  caller : String
deriving DecidableEq, Repr

/-- The response sent back to the telephony provider. -/
inductive WebhookResponse
  | duplicateAck (callId : String)
  | actions
deriving DecidableEq, Repr

/-- The dedup key `"<callerNumber>_active"`. -/
def activeKey (caller : String) : String := caller ++ "_active"

/-- JS `Map.prototype.set`: replace in place when the key exists, else append. -/
def mapSet (m : List (String × BridgeRec)) (k : String) (v : BridgeRec) :
    List (String × BridgeRec) :=
  if m.any (fun e => e.1 = k) then
    m.map (fun e => if e.1 = k then (e.1, v) else e)
  else
    m ++ [(k, v)]

/-- The last-caller-wins block of `handleWebhook`: when `"<caller>_active"` is
present, close every bridge stored for that caller (removing their call ids
from the dedup set) and drop the caller's active key; otherwise do nothing. -/
def teardownCaller (p : Payload) (s : ServerState) : ServerState :=
  if activeKey p.caller ∈ s.processedWebhooks then
    { processedWebhooks :=
        s.processedWebhooks.filter (fun k =>
          ¬ (k ∈ (s.activeBridges.filter
                (fun e => e.2.callerNumber = p.caller)).map Prod.fst ∨
             k = activeKey p.caller)),
      activeBridges :=
        s.activeBridges.filter (fun e => ¬ e.2.callerNumber = p.caller) }
  else s

/-- `handleWebhook` on a parsed payload.  Duplicate call ids are acknowledged
with no state change; otherwise the caller teardown runs, both dedup keys are
added, the action list is returned, and the new call's bridge is stored. -/
def handleWebhook (p : Payload) (s : ServerState) :
    WebhookResponse × ServerState :=
  if p.id ∈ s.processedWebhooks then
    (.duplicateAck p.id, s)
  else
    let td := teardownCaller p s
    (.actions,
     { processedWebhooks := td.processedWebhooks ++ [p.id, activeKey p.caller],
       activeBridges := mapSet td.activeBridges p.id ⟨p.caller⟩ })

/-! ## Conversational-AI relay (src/elevenlabs-bridge.js,
`ElevenLabsBridge.sendTextMessage`) -/

/-- The user-turn message shapes the bridge sends: the bare `{text}` form, the
`user_input` form, and the `user_message` form. -/
inductive AgentMsg
  | simpleText (text : String)
  | userInput (text : String)
  | userMessage (text : String)
deriving DecidableEq, Repr

/-- `sendTextMessage(text)`: no-op (nothing sent) when the WebSocket is not
open, the conversation is not ready, or the text is falsy/blank after
trimming; otherwise it sends the bare form immediately and the `user_input`
and `user_message` forms after 100 ms and 200 ms delays (during which the
socket stays open in this single-step model), all carrying `text.trim()`. -/
def sendTextMessage (wsOpen : Bool) (conversationReady : Bool) (text : String) :
    List AgentMsg :=
  if ¬ wsOpen then []
  else if ¬ conversationReady then []
  else if jsTrim text = "" then []
  else
    [.simpleText (jsTrim text), .userInput (jsTrim text), .userMessage (jsTrim text)]

/-! ## Virtual audio sink (src/CHANGELOG.md, `VirtualAudioSource` — the later
version whose `clearBuffer` enqueues a 50 ms silence frame) -/

/-- A queued playback frame: a caller-enqueued PCM buffer (by sample count) or
a generated silence buffer. -/
inductive AFrame
  | audio (samples : Nat)
  | silence (samples : Nat)
deriving DecidableEq, Repr

/-- Whether a frame is a caller-enqueued audio buffer. -/
def AFrame.isAudio : AFrame → Bool
  | .audio _ => true
  | .silence _ => false

/-- The sink state: sample rate, FIFO queue, the `isPlaying` flag and the
buffer source currently playing (if any). -/
structure SinkState where
  sampleRate : Nat
  audioQueue : List AFrame
  isPlaying : Bool
  currentSource : Option AFrame
deriving DecidableEq, Repr

/-- `playNextBuffer()`: if the queue is empty, stop; otherwise shift the head
frame off the queue and start playing it. -/
def playNextBuffer (s : SinkState) : SinkState :=
  match s.audioQueue with
  | [] => { s with isPlaying := false }
  | b :: rest =>
      { s with isPlaying := true, audioQueue := rest, currentSource := some b }

/-- `addAudioData(pcmData)`: enqueue the decoded frame and start playback when
idle. -/
def addAudioData (s : SinkState) (samples : Nat) : SinkState :=
  let s1 := { s with audioQueue := s.audioQueue ++ [AFrame.audio samples] }
  if ¬ s1.isPlaying then playNextBuffer s1 else s1

/-- `addSilence(durationMs)`: enqueue
`floor(sampleRate * durationMs / 1000)` samples of silence and start playback
when idle. -/
def addSilence (s : SinkState) (durationMs : Nat) : SinkState :=
  let samples := s.sampleRate * durationMs / 1000
  let s1 := { s with audioQueue := s.audioQueue ++ [AFrame.silence samples] }
  if ¬ s1.isPlaying then playNextBuffer s1 else s1

/-- `clearBuffer()`: stop the in-flight source immediately, discard the entire
queue, clear `isPlaying`, then `addSilence(50)` to avoid an audible gap. -/
def clearBuffer (s : SinkState) : SinkState :=
  addSilence { s with currentSource := none, audioQueue := [], isPlaying := false } 50

/-! ## Theorems -/

/-- C1 (counterexample): feeding the token batches `[{"Hello", final=false}]`,
`[{"Hello", final=true}]`, `[{"world", final=true}]`, `[endpoint]` from empty
buffers emits the single completed transcript `"Helloworld"`, not
`"Hello world"` as the claim states — final tokens are concatenated with no
separator, so any word spacing must come from the token texts themselves. -/
theorem stt_hello_scenario_not_spaced :
    (runBatches ⟨"", ""⟩ helloBatches).2 = ["Helloworld"] ∧
      (runBatches ⟨"", ""⟩ helloBatches).2 ≠ ["Hello world"] := by
  decide

/-- C1 (amended): feeding the token batches `[{"Hello", final=false}]`,
`[{"Hello", final=true}]`, `[{"world", final=true}]`, then an endpoint marker,
starting from empty buffers, emits exactly one completed-transcript event,
its text equals `"Helloworld"` (the verbatim concatenation of the final
tokens), and afterwards both the finalized and the pending buffer are empty. -/
theorem stt_hello_scenario_flush :
    runBatches ⟨"", ""⟩ helloBatches = (⟨"", ""⟩, ["Helloworld"]) := by
  decide

/-- C6 (counterexample): from the buffer state `{finalizedText := " ",
pendingText := ""}` — reachable from empty buffers by one final `" "` token —
an endpoint marker emits nothing (as claimed) but does *not* reset the
finalized buffer to empty: the reset only happens on the emitting branch. -/
theorem stt_blank_flush_no_reset :
    (handleTokens ⟨"", ""⟩ [⟨" ", true⟩]).1 = ⟨" ", ""⟩ ∧
      (handleTokens ⟨" ", ""⟩ endpointBatch).2.2 = none ∧
      (handleTokens ⟨" ", ""⟩ endpointBatch).1.currentTranscript = " " ∧
      (" " : String) ≠ "" := by
  decide

/-- C6 (amended): for every buffer state, an endpoint marker behaves as a
conditional flush: when `finalizedText.trim()` is non-empty the trimmed text
is emitted as the completed transcript and both fields are reset to empty;
when it is empty nothing is emitted and the fields are *not* reset —
`finalizedText` keeps its (whitespace-only or empty) content and `pendingText`
is replaced by the endpoint batch's non-final text, which is empty. -/
theorem stt_endpoint_flush_cases (s : STTState) :
    (jsTrim s.currentTranscript ≠ "" →
      handleTokens s endpointBatch =
        (⟨"", ""⟩, some s.currentTranscript, some (jsTrim s.currentTranscript))) ∧
    (jsTrim s.currentTranscript = "" →
      handleTokens s endpointBatch =
        (⟨s.currentTranscript, ""⟩,
         if s.currentTranscript ≠ "" then some s.currentTranscript else none,
         none)) := by
  have hscan : scanTokens endpointBatch = ("", "", true) := by decide
  constructor
  · intro h
    have hcur : s.currentTranscript ≠ "" := by
      intro hc
      exact h (by simp [hc, jsTrim, trimList])
    simp [handleTokens, hscan, hcur, h]
  · intro h
    simp [handleTokens, hscan, h]

/-- C6 (witness): the flush cases evaluated at the concrete states
`⟨"Hello", ""⟩` (emitting) and `⟨" ", ""⟩` (silent, not reset). -/
theorem stt_endpoint_flush_cases_witness :
    handleTokens ⟨"Hello", ""⟩ endpointBatch =
        (⟨"", ""⟩, some "Hello", some "Hello") ∧
      handleTokens ⟨" ", ""⟩ endpointBatch = (⟨" ", ""⟩, some " ", none) := by
  refine ⟨?_, ?_⟩
  · have h := (stt_endpoint_flush_cases ⟨"Hello", ""⟩).1 (by decide)
    simpa using h
  · have h := (stt_endpoint_flush_cases ⟨" ", ""⟩).2 (by decide)
    simpa using h

/-- A decimal digit character's numeric value is at most 9. -/
theorem digitVal_le_nine {c : Char} (h : c.isDigit = true) : digitVal c ≤ 9 := by
  simp [Char.isDigit, Bool.and_eq_true, decide_eq_true_eq] at h
  have h3 : c.val.toNat ≤ (57 : UInt32).toNat := h.2
  have h4 : (57 : UInt32).toNat = 57 := by decide
  simp [digitVal, Char.toNat]
  omega

set_option maxHeartbeats 1000000 in
set_option maxRecDepth 8000 in
/-- The source 10-digit window check agrees with the spec-worded one. -/
theorem isValid_eq_specWindowOk (cs : List Char) :
    isValidSwedishSSN (String.mk cs) = specWindowOk cs := by
  by_cases hl : cs.length = 10
  · by_cases hd : cs.all Char.isDigit = true
    · rcases cs with _|⟨a, _|⟨b, _|⟨c, _|⟨d0, _|⟨e, _|⟨f, _|⟨g, _|⟨h2, _|⟨i, _|⟨j, _|⟨k, tl⟩⟩⟩⟩⟩⟩⟩⟩⟩⟩⟩ <;>
        simp_all [List.all_cons]
      obtain ⟨ha, hb, hc, hd0, he, hf, hg, hh, hi, hj⟩ := hd
      have hjle : digitVal j ≤ 9 := digitVal_le_nine hj
      simp only [isValidSwedishSSN, specWindowOk, luhnSum, List.range, List.range.loop,
        List.foldl, List.getD, List.get?, List.map, List.enum, List.enumFrom, List.sum,
        List.all_cons, List.all_nil, List.length_cons, List.length_nil, List.take,
        Option.getD_some, ha, hb, hc, hd0, he, hf, hg, hh, hi, hj]
      norm_num
      generalize luhnAdjust (2 * digitVal a) = x1
      generalize luhnAdjust (2 * digitVal c) = x2
      generalize luhnAdjust (2 * digitVal e) = x3
      generalize luhnAdjust (2 * digitVal g) = x4
      generalize luhnAdjust (2 * digitVal i) = x5
      rw [Bool.eq_iff_iff]
      simp only [Bool.and_eq_true, Bool.or_eq_true,
        Bool.not_eq_true', decide_eq_true_eq, decide_eq_false_iff_not]
      omega
    · simp [isValidSwedishSSN, specWindowOk, hl, hd]
  · simp [isValidSwedishSSN, specWindowOk, hl]

/-- Dropping the century of the last-12 window yields the last-10 window. -/
theorem lastN12_drop2 (l : List Char) (h : 12 ≤ l.length) :
    (lastN 12 l).drop 2 = lastN 10 l := by
  simp [lastN, List.drop_drop]
  congr 1
  omega

/-- The source validator agrees with the spec-worded validator everywhere. -/
theorem validate_eq_spec (d : String) : validateSwedishSSN d = specValidateSSN d := by
  unfold validateSwedishSSN specValidateSSN
  simp only [isValid_eq_specWindowOk]
  by_cases h12 : 12 ≤ d.data.length
  · rw [lastN12_drop2 d.data h12]
  · have h12' : ¬ (12 ≤ d.length) := h12
    simp [h12']

/-- A window accepted by `isValidSwedishSSN` has exactly 10 digit characters. -/
theorem isValid_shape {s : String} (h : isValidSwedishSSN s = true) :
    s.data.length = 10 ∧ s.data.all Char.isDigit = true := by
  unfold isValidSwedishSSN at h
  dsimp only at h
  by_cases hc : s.data.length = 10 ∧ s.data.all Char.isDigit = true
  · exact hc
  · rw [if_pos] at h
    · exact absurd h (by decide)
    · exact hc

/-- Taking the last `ys.length` elements of `xs ++ ys` yields `ys`. -/
theorem lastN_append_right (xs ys : List Char) :
    lastN ys.length (xs ++ ys) = ys := by
  simp only [lastN, List.length_append]
  rw [show xs.length + ys.length - ys.length = xs.length by omega]
  exact List.drop_left xs ys

/-- C7: processing a `'*'` digit always clears the DTMF accumulator, and the
forwarded identity is the source validator applied to the last at-most-12
buffered digits; that validator agrees everywhere with the spec-worded
procedure (10-digit and 12-digit formats, month `1..12`, day `1..31`,
Luhn-style checksum over the 10-digit window, century pivot
`yy < 30 ↦ 20xx`, otherwise `19xx`, normalized 12-digit output). -/
theorem dtmf_star_validates_and_clears (buffer : List Char) :
    (handleDtmfDigit '*' buffer).2 = [] ∧
    (handleDtmfDigit '*' buffer).1 = validateSwedishSSN (String.mk (lastN 12 buffer)) ∧
    ∀ d : String, validateSwedishSSN d = specValidateSSN d :=
  ⟨by simp [handleDtmfDigit], by simp [handleDtmfDigit], fun d => validate_eq_spec d⟩

/-- C10: whenever `validateSwedishSSN` returns a result, it is a string of
exactly 12 decimal digits whose last 10 digits pass `isValidSwedishSSN`. -/
theorem validateSSN_success_normalized (d r : String)
    (h : validateSwedishSSN d = some r) :
    r.data.length = 12 ∧ r.data.all Char.isDigit = true ∧
      isValidSwedishSSN (String.mk (lastN 10 r.data)) = true := by
  unfold validateSwedishSSN at h
  dsimp only at h
  by_cases h1 : d.data.length ≥ 10 ∧ isValidSwedishSSN (String.mk (lastN 10 d.data)) = true
  · rw [if_pos h1] at h
    obtain ⟨hlen, hvalid⟩ := h1
    obtain ⟨hwlen, hwdig⟩ := isValid_shape hvalid
    have hr : r = (if 10 * digitVal ((lastN 10 d.data).getD 0 ' ') +
        digitVal ((lastN 10 d.data).getD 1 ' ') < 30 then "20" else "19") ++
        String.mk (lastN 10 d.data) := (Option.some.inj h).symm
    have hlast20 : lastN 10 (("20" : String).data ++ lastN 10 d.data) = lastN 10 d.data := by
      have hgen := lastN_append_right ("20" : String).data (lastN 10 d.data)
      rwa [show (lastN 10 d.data).length = 10 from hwlen] at hgen
    have hlast19 : lastN 10 (("19" : String).data ++ lastN 10 d.data) = lastN 10 d.data := by
      have hgen := lastN_append_right ("19" : String).data (lastN 10 d.data)
      rwa [show (lastN 10 d.data).length = 10 from hwlen] at hgen
    by_cases hyy : 10 * digitVal ((lastN 10 d.data).getD 0 ' ') +
        digitVal ((lastN 10 d.data).getD 1 ' ') < 30
    · rw [if_pos hyy] at hr
      refine ⟨?_, ?_, ?_⟩
      · simp [hr, String.data_append, hwlen]
      · rw [hr, String.data_append]
        simp only [List.all_append, Bool.and_eq_true]
        exact ⟨by decide, hwdig⟩
      · rw [hr, String.data_append, hlast20]
        exact hvalid
    · rw [if_neg hyy] at hr
      refine ⟨?_, ?_, ?_⟩
      · simp [hr, String.data_append, hwlen]
      · rw [hr, String.data_append]
        simp only [List.all_append, Bool.and_eq_true]
        exact ⟨by decide, hwdig⟩
      · rw [hr, String.data_append, hlast19]
        exact hvalid
  · rw [if_neg h1] at h
    by_cases h2 : d.data.length ≥ 12 ∧
        isValidSwedishSSN (String.mk ((lastN 12 d.data).drop 2)) = true
    · obtain ⟨h12, hv⟩ := h2
      rw [lastN12_drop2 d.data h12] at hv
      exact absurd ⟨by omega, hv⟩ h1
    · rw [if_neg h2] at h
      exact absurd h (by simp)

/-- C10 (witness): the digits `8112241230` validate to `198112241230`, which
satisfies the normalization postcondition. -/
theorem validateSSN_success_normalized_witness :
    ("198112241230" : String).data.length = 12 ∧
      ("198112241230" : String).data.all Char.isDigit = true ∧
      isValidSwedishSSN (String.mk (lastN 10 ("198112241230" : String).data)) = true :=
  validateSSN_success_normalized "8112241230" "198112241230" (by decide)

/-- C8 (counterexample): with the socket open, the conversation ready and the
non-blank text `"hi"`, `sendTextMessage` dispatches three user-turn messages
(the bare, `user_input` and `user_message` formats), not exactly one as the
claim states. -/
theorem sendText_three_formats_not_one :
    sendTextMessage true true "hi" =
      [.simpleText "hi", .userInput "hi", .userMessage "hi"] ∧
    (sendTextMessage true true "hi").length ≠ 1 := by
  decide

/-- C8 (amended): `sendTextMessage` is a no-op — nothing is sent — when the
connection is not open, the conversation is not ready, or the text is blank
after trimming; otherwise it dispatches three user-turn messages, one in each
of the bare, `user_input` and `user_message` formats, every one carrying the
trimmed text. -/
theorem sendText_guards_and_dispatch (wsOpen conversationReady : Bool) (text : String) :
    (¬ (wsOpen = true ∧ conversationReady = true ∧ jsTrim text ≠ "") →
      sendTextMessage wsOpen conversationReady text = []) ∧
    (wsOpen = true → conversationReady = true → jsTrim text ≠ "" →
      sendTextMessage wsOpen conversationReady text =
        [.simpleText (jsTrim text), .userInput (jsTrim text), .userMessage (jsTrim text)]) := by
  constructor
  · intro h
    by_cases hw : wsOpen = true
    · by_cases hr : conversationReady = true
      · have ht : jsTrim text = "" := by
          by_contra hc
          exact h ⟨hw, hr, hc⟩
        simp [sendTextMessage, hw, hr, ht]
      · simp [sendTextMessage, hr]
    · simp [sendTextMessage, hw]
  · intro hw hr ht
    simp [sendTextMessage, hw, hr, ht]

/-- C8 (witness): a not-ready conversation sends nothing, and a ready one with
text `"  hi  "` sends the three formats carrying `"hi"`. -/
theorem sendText_guards_and_dispatch_witness :
    sendTextMessage true false "hi" = [] ∧
      sendTextMessage true true "  hi  " =
        [.simpleText "hi", .userInput "hi", .userMessage "hi"] := by
  constructor
  · exact (sendText_guards_and_dispatch true false "hi").1 (by decide)
  · have h := (sendText_guards_and_dispatch true true "  hi  ").2 rfl rfl (by decide)
    rw [h]
    decide

/-- C9: with frames queued and one playing, `clearBuffer()` stops the in-flight
frame, discards every queued frame (leaving zero caller-enqueued frames), and
schedules a 50 ms silence frame — tens of milliseconds at the sink's sample
rate — as the only remaining playback before the sink goes idle. -/
theorem clearBuffer_barge_in (s : SinkState)
    (hq : s.audioQueue ≠ []) (hp : s.isPlaying = true) :
    clearBuffer s =
      { sampleRate := s.sampleRate, audioQueue := [], isPlaying := true,
        currentSource := some (AFrame.silence (s.sampleRate * 50 / 1000)) } := by
  simp [clearBuffer, addSilence, playNextBuffer]

/-- C9 (witness): a 48 kHz sink with one queued frame and one playing frame is
left with an empty queue and a 2400-sample (50 ms) silence frame playing. -/
theorem clearBuffer_barge_in_witness :
    clearBuffer ⟨48000, [AFrame.audio 1600], true, some (AFrame.audio 800)⟩ =
      ⟨48000, [], true, some (AFrame.silence 2400)⟩ := by
  have h := clearBuffer_barge_in ⟨48000, [AFrame.audio 1600], true, some (AFrame.audio 800)⟩
    (by decide) rfl
  rw [h]
  decide

/-- C5: for a well-formed pool, `getAvailableTab` never blocks or fails: when
every slot is busy it creates one additional slot — returning a tab id
distinct from all existing ones, whose slot is busy — and the slot count
grows by one; when a free slot exists it returns the first free slot, marks
it busy, and the slot count is unchanged. -/
theorem getAvailableTab_spec (s : PoolState)
    (hw : ∀ e ∈ s.tabs, e.1 < s.nextTabId) :
    ((∀ e ∈ s.tabs, e.2.busy = true) →
      (getAvailableTab s).2.tabs.length = s.tabs.length + 1 ∧
      (∀ e ∈ s.tabs, e.1 ≠ (getAvailableTab s).1) ∧
      ((getAvailableTab s).1, Tab.mk true none) ∈ (getAvailableTab s).2.tabs) ∧
    ((∃ e ∈ s.tabs, e.2.busy = false) →
      (∃ t : Tab, s.tabs.find? (fun e => !e.2.busy) = some ((getAvailableTab s).1, t) ∧
        ((getAvailableTab s).1, { t with busy := true }) ∈ (getAvailableTab s).2.tabs) ∧
      (getAvailableTab s).2.tabs.length = s.tabs.length) := by
  constructor
  · intro hbusy
    have hfind : s.tabs.find? (fun e => !e.2.busy) = none := by
      refine List.find?_eq_none.mpr ?_
      intro e he
      simp [hbusy e he]
    simp only [getAvailableTab, hfind, createTab, updateTab]
    refine ⟨by simp, ?_, ?_⟩
    · intro e he
      exact Nat.ne_of_lt (hw e he)
    · have hmem : (s.nextTabId, Tab.mk false none) ∈ s.tabs ++ [(s.nextTabId, Tab.mk false none)] :=
        List.mem_append_right _ (by simp)
      have := List.mem_map_of_mem
        (fun e => if e.1 = s.nextTabId then (e.1, { e.2 with busy := true }) else e) hmem
      simpa using this
  · intro hfree
    have hsome : (s.tabs.find? (fun e => !e.2.busy)).isSome := by
      rw [List.find?_isSome]
      obtain ⟨e, he, hb⟩ := hfree
      exact ⟨e, he, by simp [hb]⟩
    obtain ⟨e0, hfind⟩ := Option.isSome_iff_exists.mp hsome
    have he0mem : e0 ∈ s.tabs := List.mem_of_find?_eq_some hfind
    simp only [getAvailableTab, hfind, updateTab]
    refine ⟨⟨e0.2, ?_, ?_⟩, by simp⟩
    · simp
    · have := List.mem_map_of_mem
        (fun e => if e.1 = e0.1 then (e.1, { e.2 with busy := true }) else e) he0mem
      simpa using this

/-- C5 (witness): on a single-slot pool that is fully busy, acquisition grows
the pool to two slots and the fresh slot is busy; on a single free slot, the
count stays one. -/
theorem getAvailableTab_spec_witness :
    (getAvailableTab ⟨[(0, ⟨true, some "c"⟩)], 1⟩).2.tabs.length = 2 ∧
    ((getAvailableTab ⟨[(0, ⟨true, some "c"⟩)], 1⟩).1, Tab.mk true none) ∈
        (getAvailableTab ⟨[(0, ⟨true, some "c"⟩)], 1⟩).2.tabs ∧
    (getAvailableTab ⟨[(0, ⟨false, none⟩)], 1⟩).2.tabs.length = 1 := by
  have h1 := (getAvailableTab_spec ⟨[(0, ⟨true, some "c"⟩)], 1⟩ (by decide)).1 (by decide)
  have h2 := (getAvailableTab_spec ⟨[(0, ⟨false, none⟩)], 1⟩ (by decide)).2 (by decide)
  exact ⟨h1.1, h1.2.2, h2.2⟩

/-- A table whose keys are distinct holds at most one entry under any key. -/
theorem countP_key_le_one (m : List (String × BridgeRec)) (k : String)
    (h : (m.map Prod.fst).Nodup) : m.countP (fun e => e.1 = k) ≤ 1 := by
  induction m with
  | nil => simp
  | cons e t ih =>
    simp only [List.map_cons, List.nodup_cons] at h
    by_cases hek : e.1 = k
    · have ht0 : t.countP (fun e => e.1 = k) = 0 := by
        rw [List.countP_eq_zero]
        intro x hx
        simp only [decide_eq_true_eq]
        intro hxk
        exact h.1 (by rw [hek, ← hxk]; exact List.mem_map_of_mem Prod.fst hx)
      simp [List.countP_cons, hek, ht0]
    · simp only [List.countP_cons, hek, decide_eq_true_eq, if_false]
      simpa using ih h.2

/-- After `Map.set`, a table with distinct keys holds exactly one entry under
the written key. -/
theorem mapSet_countP (m : List (String × BridgeRec)) (k : String) (v : BridgeRec)
    (h : (m.map Prod.fst).Nodup) :
    (mapSet m k v).countP (fun e => e.1 = k) = 1 := by
  by_cases hany : m.any (fun e => e.1 = k) = true
  · simp only [mapSet, hany, if_true]
    rw [List.countP_map]
    have heq : ((fun e : String × BridgeRec => decide (e.1 = k)) ∘
        (fun e : String × BridgeRec => if e.1 = k then (e.1, v) else e)) =
        (fun e : String × BridgeRec => decide (e.1 = k)) := by
      funext e
      by_cases he : e.1 = k <;> simp [he]
    rw [heq]
    have hpos : 0 < m.countP (fun e => e.1 = k) := by
      rw [List.countP_pos_iff]
      obtain ⟨a, ha, hak⟩ := List.any_eq_true.mp hany
      exact ⟨a, ha, hak⟩
    have hle := countP_key_le_one m k h
    omega
  · simp only [mapSet, hany, if_false, Bool.false_eq_true]
    rw [List.countP_append]
    have m0 : m.countP (fun e => e.1 = k) = 0 := by
      rw [List.countP_eq_zero]
      intro x hx hxk
      exact (List.any_eq_true.not.mp hany) ⟨x, hx, hxk⟩
    simp [m0]

/-- The written entry is a member of the table after `Map.set`. -/
theorem mapSet_self_mem (m : List (String × BridgeRec)) (k : String) (v : BridgeRec) :
    (k, v) ∈ mapSet m k v := by
  by_cases hany : m.any (fun e => e.1 = k) = true
  · simp only [mapSet, hany, if_true]
    obtain ⟨a, ha, hak⟩ := List.any_eq_true.mp hany
    have hak' : a.1 = k := by simpa using hak
    refine List.mem_map.mpr ⟨a, ha, ?_⟩
    simp [hak']
  · simp only [mapSet, hany, if_false, Bool.false_eq_true]
    exact List.mem_append_right _ (by simp)

/-- Every entry of a table after `Map.set` is the written entry or a
pre-existing entry under a different key. -/
theorem mapSet_mem_inv (m : List (String × BridgeRec)) (k : String) (v : BridgeRec)
    (x : String × BridgeRec) (hx : x ∈ mapSet m k v) :
    x = (k, v) ∨ (x ∈ m ∧ x.1 ≠ k) := by
  by_cases hany : m.any (fun e => e.1 = k) = true
  · simp only [mapSet, hany, if_true] at hx
    obtain ⟨a, ha, hax⟩ := List.mem_map.mp hx
    by_cases hak : a.1 = k
    · left
      rw [← hax]
      simp [hak]
    · right
      have hfa : (if a.1 = k then (a.1, v) else a) = a := by simp [hak]
      rw [← hax, hfa]
      exact ⟨ha, hak⟩
  · simp only [mapSet, hany, if_false, Bool.false_eq_true] at hx
    rcases List.mem_append.mp hx with hm | hs
    · right
      refine ⟨hm, ?_⟩
      intro hk
      exact (List.any_eq_true.not.mp hany) ⟨x, hm, by simp [hk]⟩
    · left
      simpa using hs

/-- The caller teardown preserves distinctness of the bridge table's keys. -/
theorem teardown_nodup (p : Payload) (s : ServerState)
    (h : (s.activeBridges.map Prod.fst).Nodup) :
    ((teardownCaller p s).activeBridges.map Prod.fst).Nodup := by
  unfold teardownCaller
  by_cases hkey : activeKey p.caller ∈ s.processedWebhooks
  · rw [if_pos hkey]
    exact List.Nodup.sublist (List.Sublist.map Prod.fst (List.filter_sublist _)) h
  · rw [if_neg hkey]
    exact h

/-- A delivery whose call id is already registered is acknowledged with no
state change. -/
theorem handleWebhook_dup (p : Payload) (s : ServerState)
    (h : p.id ∈ s.processedWebhooks) :
    handleWebhook p s = (.duplicateAck p.id, s) := by
  unfold handleWebhook
  rw [if_pos h]

/-- The fresh-delivery branch of `handleWebhook`, spelled out. -/
theorem handleWebhook_fresh (p : Payload) (s : ServerState)
    (h : p.id ∉ s.processedWebhooks) :
    handleWebhook p s = (.actions,
      { processedWebhooks := (teardownCaller p s).processedWebhooks ++
          [p.id, activeKey p.caller],
        activeBridges := mapSet (teardownCaller p s).activeBridges p.id ⟨p.caller⟩ }) := by
  unfold handleWebhook
  rw [if_neg h]

/-- C3: the webhook handler is idempotent per payload id.  After a first
delivery of a fresh payload, delivering the identical payload again returns a
duplicate acknowledgment and leaves the state exactly unchanged — no second
session, no other side effects — and exactly one bridge exists under that
call id. -/
theorem webhook_idempotent (p : Payload) (s0 : ServerState)
    (hfresh : p.id ∉ s0.processedWebhooks)
    (hnodup : (s0.activeBridges.map Prod.fst).Nodup) :
    handleWebhook p (handleWebhook p s0).2 =
      (.duplicateAck p.id, (handleWebhook p s0).2) ∧
    (handleWebhook p s0).2.activeBridges.countP (fun e => e.1 = p.id) = 1 := by
  rw [handleWebhook_fresh p s0 hfresh]
  constructor
  · apply handleWebhook_dup
    simp
  · exact mapSet_countP _ _ _ (teardown_nodup p s0 hnodup)

/-- C3 (witness): from the empty server state, delivering call `"call1"` twice
acknowledges the second delivery without changes and keeps one bridge. -/
theorem webhook_idempotent_witness :
    handleWebhook ⟨"call1", "0701"⟩ (handleWebhook ⟨"call1", "0701"⟩ ⟨[], []⟩).2 =
      (.duplicateAck "call1", (handleWebhook ⟨"call1", "0701"⟩ ⟨[], []⟩).2) ∧
    (handleWebhook ⟨"call1", "0701"⟩ ⟨[], []⟩).2.activeBridges.countP
        (fun e => e.1 = "call1") = 1 :=
  webhook_idempotent ⟨"call1", "0701"⟩ ⟨[], []⟩ (by decide) (by decide)

/-- C4: when an inbound call arrives from a caller whose `"<caller>_active"`
dedup key is present (and the call id itself is fresh), the handler tears
down every session stored for that caller before creating the new one: after
the handler completes, the only bridge whose caller number matches is the new
call's, that bridge is present, and its call id is stored exactly once. -/
theorem webhook_last_caller_wins (p : Payload) (s0 : ServerState)
    (hfresh : p.id ∉ s0.processedWebhooks)
    (hkey : activeKey p.caller ∈ s0.processedWebhooks)
    (hnodup : (s0.activeBridges.map Prod.fst).Nodup) :
    (∀ e ∈ (handleWebhook p s0).2.activeBridges,
        e.2.callerNumber = p.caller → e = (p.id, ⟨p.caller⟩)) ∧
    (p.id, BridgeRec.mk p.caller) ∈ (handleWebhook p s0).2.activeBridges ∧
    (handleWebhook p s0).2.activeBridges.countP (fun e => e.1 = p.id) = 1 := by
  rw [handleWebhook_fresh p s0 hfresh]
  refine ⟨?_, mapSet_self_mem _ _ _, mapSet_countP _ _ _ (teardown_nodup p s0 hnodup)⟩
  intro e he hcaller
  rcases mapSet_mem_inv _ _ _ e he with h | ⟨hm, hne⟩
  · exact h
  · unfold teardownCaller at hm
    rw [if_pos hkey] at hm
    have hf := List.of_mem_filter hm
    simp at hf
    exact absurd hcaller hf

/-- C4 (witness): with caller `"0701"` active on old call `"old1"`, a new call
`"new1"` from the same caller leaves only the new call's bridge for that
caller. -/
theorem webhook_last_caller_wins_witness :
    (∀ e ∈ (handleWebhook ⟨"new1", "0701"⟩
        ⟨["0701_active"], [("old1", ⟨"0701"⟩)]⟩).2.activeBridges,
        e.2.callerNumber = "0701" → e = ("new1", ⟨"0701"⟩)) ∧
    ("new1", BridgeRec.mk "0701") ∈ (handleWebhook ⟨"new1", "0701"⟩
        ⟨["0701_active"], [("old1", ⟨"0701"⟩)]⟩).2.activeBridges ∧
    (handleWebhook ⟨"new1", "0701"⟩
        ⟨["0701_active"], [("old1", ⟨"0701"⟩)]⟩).2.activeBridges.countP
        (fun e => e.1 = "new1") = 1 :=
  webhook_last_caller_wins ⟨"new1", "0701"⟩ ⟨["0701_active"], [("old1", ⟨"0701"⟩)]⟩
    (by decide) (by decide) (by decide)

/-- Updating one slot in place leaves the table's key sequence unchanged. -/
theorem updateTab_keys (tabs : List (Nat × Tab)) (tid : Nat) (f : Tab → Tab) :
    (updateTab tabs tid f).map Prod.fst = tabs.map Prod.fst := by
  unfold updateTab
  rw [List.map_map]
  apply List.map_congr_left
  intro e he
  by_cases h : e.1 = tid <;> simp [h]

/-- Every member of an updated table is an untouched entry under a different
key, or the image of an entry stored under the updated key. -/
theorem mem_updateTab {tabs : List (Nat × Tab)} {tid : Nat} {f : Tab → Tab}
    {x : Nat × Tab} (hx : x ∈ updateTab tabs tid f) :
    (x ∈ tabs ∧ x.1 ≠ tid) ∨ (∃ t, (tid, t) ∈ tabs ∧ x = (tid, f t)) := by
  obtain ⟨a, ha, hax⟩ := List.mem_map.mp hx
  by_cases hak : a.1 = tid
  · right
    refine ⟨a.2, by rw [← hak]; exact ha, ?_⟩
    rw [← hax]
    simp [hak]
  · left
    have hfa : (if a.1 = tid then (a.1, f a.2) else a) = a := by simp [hak]
    rw [← hax, hfa]
    exact ⟨ha, hak⟩

/-- A slot table with distinct ids holds at most one entry under any id. -/
theorem countP_fst_le_one (m : List (Nat × Tab)) (k : Nat)
    (h : (m.map Prod.fst).Nodup) : m.countP (fun e => e.1 = k) ≤ 1 := by
  induction m with
  | nil => simp
  | cons e t ih =>
    simp only [List.map_cons, List.nodup_cons] at h
    by_cases hek : e.1 = k
    · have ht0 : t.countP (fun e => e.1 = k) = 0 := by
        rw [List.countP_eq_zero]
        intro x hx
        simp only [decide_eq_true_eq]
        intro hxk
        exact h.1 (by rw [hek, ← hxk]; exact List.mem_map_of_mem Prod.fst hx)
      simp [List.countP_cons, hek, ht0]
    · simp only [List.countP_cons, hek, decide_eq_true_eq, if_false]
      simpa using ih h.2

/-- An in-place update whose image never satisfies `p` cannot increase the
number of entries satisfying `p`. -/
theorem updateTab_countP_le_of (tabs : List (Nat × Tab)) (tid : Nat) (f : Tab → Tab)
    (p : Nat × Tab → Bool) (hf : ∀ t, p (tid, f t) = false) :
    (updateTab tabs tid f).countP p ≤ tabs.countP p := by
  unfold updateTab
  rw [List.countP_map]
  apply List.countP_mono_left
  intro e he hpe
  by_cases hek : e.1 = tid
  · exfalso
    have : p (tid, f e.2) = false := hf e.2
    simp [Function.comp, hek, this] at hpe
  · simpa [Function.comp, hek] using hpe

/-- When no untouched entry satisfies `p`, the entries satisfying `p` after an
in-place update all sit under the updated key. -/
theorem updateTab_countP_le_key (tabs : List (Nat × Tab)) (tid : Nat) (f : Tab → Tab)
    (p : Nat × Tab → Bool) (hother : ∀ e ∈ tabs, e.1 ≠ tid → p e = false) :
    (updateTab tabs tid f).countP p ≤ tabs.countP (fun e => e.1 = tid) := by
  unfold updateTab
  rw [List.countP_map]
  apply List.countP_mono_left
  intro e he hpe
  simp only [decide_eq_true_eq]
  by_cases hek : e.1 = tid
  · exact hek
  · exfalso
    have : p e = false := hother e he hek
    simp [Function.comp, hek, this] at hpe

/-- Two consecutive in-place updates of the same slot compose. -/
theorem updateTab_updateTab (tabs : List (Nat × Tab)) (tid : Nat) (f g : Tab → Tab) :
    updateTab (updateTab tabs tid f) tid g = updateTab tabs tid (fun t => g (f t)) := by
  unfold updateTab
  rw [List.map_map]
  apply List.map_congr_left
  intro e he
  by_cases h : e.1 = tid <;> simp [Function.comp, h]

/-- The empty pool satisfies the slot invariant and is well formed. -/
theorem empty_pool_inv : PoolInv ⟨[], 0⟩ ∧ PoolWF ⟨[], 0⟩ := by
  refine ⟨⟨?_, ?_⟩, ?_, ?_⟩ <;> simp [PoolInv, PoolWF]

/-- `createTab` preserves the slot invariant and well-formedness. -/
theorem createTab_preserves (s : PoolState) (h : PoolInv s ∧ PoolWF s) :
    PoolInv (createTab s).2 ∧ PoolWF (createTab s).2 := by
  obtain ⟨⟨hinv1, hinv2⟩, hbound, hnodup⟩ := h
  dsimp only [createTab]
  refine ⟨⟨?_, ?_⟩, ?_, ?_⟩
  · intro e he
    rcases List.mem_append.mp he with hm | hs
    · exact hinv1 e hm
    · have : e = (s.nextTabId, Tab.mk false none) := by simpa using hs
      simp [this]
  · intro c
    rw [List.countP_append]
    have h0 : List.countP (fun e => decide (e.2.callId = some c))
        [(s.nextTabId, Tab.mk false none)] = 0 := by simp
    rw [h0]
    simpa using hinv2 c
  · intro e he
    rcases List.mem_append.mp he with hm | hs
    · exact Nat.lt_succ_of_lt (hbound e hm)
    · have : e = (s.nextTabId, Tab.mk false none) := by simpa using hs
      simp [this]
  · rw [List.map_append]
    rw [List.nodup_append]
    refine ⟨hnodup, by simp, ?_⟩
    intro k hk
    simp only [List.map_cons, List.map_nil, List.mem_singleton]
    intro hks
    rw [hks] at hk
    obtain ⟨e, he, hek⟩ := List.mem_map.mp hk
    have := hbound e he
    omega

/-- Iterating `createTab` preserves the slot invariant and well-formedness. -/
theorem foldl_createTab_inv (l : List Nat) (s : PoolState) (h : PoolInv s ∧ PoolWF s) :
    PoolInv (l.foldl (fun acc _ => (createTab acc).2) s) ∧
      PoolWF (l.foldl (fun acc _ => (createTab acc).2) s) := by
  induction l generalizing s with
  | nil => exact h
  | cons x t ih => exact ih _ (createTab_preserves s h)

/-- `initialize(n)` produces a pool satisfying the slot invariant. -/
theorem initializePool_inv (n : Nat) :
    PoolInv (initializePool n) ∧ PoolWF (initializePool n) :=
  foldl_createTab_inv (List.range n) ⟨[], 0⟩ empty_pool_inv

/-- Writing `⟨busy, assigned call id⟩` into one slot of a table satisfying the
invariant, for a call id assigned nowhere, preserves both invariant clauses. -/
theorem allocate_tabs_core (base : List (Nat × Tab)) (tid : Nat) (c : String)
    (hinv1 : ∀ e ∈ base, e.2.busy = true ↔ e.2.callId ≠ none)
    (hinv2 : ∀ c' : String, base.countP (fun e => e.2.callId = some c') ≤ 1)
    (hnodup : (base.map Prod.fst).Nodup)
    (hfresh : ∀ e ∈ base, e.2.callId ≠ some c) :
    (∀ e ∈ updateTab base tid (fun _ => Tab.mk true (some c)),
        e.2.busy = true ↔ e.2.callId ≠ none) ∧
    (∀ c' : String, (updateTab base tid (fun _ => Tab.mk true (some c))).countP
        (fun e => e.2.callId = some c') ≤ 1) := by
  constructor
  · intro x hx
    rcases mem_updateTab hx with ⟨hm, hne⟩ | ⟨t, ht, rfl⟩
    · exact hinv1 x hm
    · simp
  · intro c'
    by_cases hcc : c' = c
    · subst hcc
      refine le_trans (updateTab_countP_le_key base tid _ _ ?_)
        (countP_fst_le_one base tid hnodup)
      intro e he hne
      simp [hfresh e he]
    · refine le_trans (updateTab_countP_le_of base tid _ _ ?_) (hinv2 c')
      intro t
      simp [Ne.symm hcc]

/-- `releaseTab` preserves the slot invariant and well-formedness. -/
theorem releaseTab_preserves (s : PoolState) (tid : Nat) (h : PoolInv s ∧ PoolWF s) :
    PoolInv (releaseTab s tid) ∧ PoolWF (releaseTab s tid) := by
  obtain ⟨⟨hinv1, hinv2⟩, hbound, hnodup⟩ := h
  unfold releaseTab
  refine ⟨⟨?_, ?_⟩, ?_, ?_⟩ <;> dsimp only
  · intro x hx
    rcases mem_updateTab hx with ⟨hm, hne⟩ | ⟨t, ht, rfl⟩
    · exact hinv1 x hm
    · simp
  · intro c'
    exact le_trans (updateTab_countP_le_of _ _ _ _ (fun t => by simp)) (hinv2 c')
  · intro e he
    rcases mem_updateTab he with ⟨hm, hne⟩ | ⟨t, ht, rfl⟩
    · exact hbound e hm
    · exact hbound (tid, t) ht
  · rw [updateTab_keys]
    exact hnodup

/-- Health replacement of a crashed slot preserves the invariant. -/
theorem replaceTab_preserves (s : PoolState) (tid : Nat) (h : PoolInv s ∧ PoolWF s) :
    PoolInv (replaceTab s tid) ∧ PoolWF (replaceTab s tid) := by
  obtain ⟨⟨hinv1, hinv2⟩, hbound, hnodup⟩ := h
  unfold replaceTab
  apply createTab_preserves
  refine ⟨⟨?_, ?_⟩, ?_, ?_⟩
  · intro e he
    exact hinv1 e (List.mem_of_mem_filter he)
  · intro c'
    exact le_trans (List.Sublist.countP_le _ (List.filter_sublist _)) (hinv2 c')
  · intro e he
    exact hbound e (List.mem_of_mem_filter he)
  · exact List.Nodup.sublist (List.Sublist.map Prod.fst (List.filter_sublist _)) hnodup

/-- The paired acquisition (`getAvailableTab` followed immediately by
`startBridge` with a call id assigned nowhere) preserves the invariant. -/
theorem acquireStart_preserves (s : PoolState) (c : String)
    (h : PoolInv s ∧ PoolWF s)
    (hfresh : ∀ e ∈ s.tabs, e.2.callId ≠ some c) :
    PoolInv (acquireStart s c) ∧ PoolWF (acquireStart s c) := by
  obtain ⟨⟨hinv1, hinv2⟩, hbound, hnodup⟩ := h
  unfold acquireStart getAvailableTab
  rcases hfind : s.tabs.find? (fun e => !e.2.busy) with _ | e0
  · simp only [hfind]
    unfold startBridge createTab
    dsimp only
    rw [updateTab_updateTab]
    have hext := createTab_preserves s ⟨⟨hinv1, hinv2⟩, hbound, hnodup⟩
    obtain ⟨⟨hinv1', hinv2'⟩, hbound', hnodup'⟩ := hext
    dsimp only [createTab] at hinv1' hinv2' hbound' hnodup'
    have hfresh' : ∀ e ∈ s.tabs ++ [(s.nextTabId, Tab.mk false none)],
        e.2.callId ≠ some c := by
      intro e he
      rcases List.mem_append.mp he with hm | hs
      · exact hfresh e hm
      · have : e = (s.nextTabId, Tab.mk false none) := by simpa using hs
        simp [this]
    have hcore := allocate_tabs_core _ s.nextTabId c hinv1' hinv2' hnodup' hfresh'
    refine ⟨⟨hcore.1, hcore.2⟩, ?_, ?_⟩
    · intro e he
      dsimp only at he
      rcases mem_updateTab he with ⟨hm, hne⟩ | ⟨t, ht, rfl⟩
      · exact hbound' e hm
      · exact hbound' (s.nextTabId, t) ht
    · dsimp only
      rw [updateTab_keys]
      exact hnodup'
  · simp only [hfind]
    unfold startBridge
    dsimp only
    rw [updateTab_updateTab]
    have hcore := allocate_tabs_core s.tabs e0.1 c hinv1 hinv2 hnodup hfresh
    refine ⟨⟨hcore.1, hcore.2⟩, ?_, ?_⟩
    · intro e he
      dsimp only at he
      rcases mem_updateTab he with ⟨hm, hne⟩ | ⟨t, ht, rfl⟩
      · exact hbound e hm
      · exact hbound (e0.1, t) ht
    · dsimp only
      rw [updateTab_keys]
      exact hnodup

/-- C2 (counterexample): the claim's invariant `busy == (assignedCallId !=
null)` is *not* preserved by `getAvailableTab` taken as an individual
operation: after `initialize(1)` followed by one acquisition, the pool's only
slot — reached exactly by the claimed operations — is busy with a null call
id. -/
theorem pool_acquire_transient_violation :
    (getAvailableTab (initializePool 1)).2.tabs = [(0, Tab.mk true none)] ∧
    ¬ PoolInv (getAvailableTab (initializePool 1)).2 := by
  have htabs : (getAvailableTab (initializePool 1)).2.tabs = [(0, Tab.mk true none)] := by
    decide
  refine ⟨htabs, fun h => ?_⟩
  have hmem : ((0 : Nat), Tab.mk true none) ∈ (getAvailableTab (initializePool 1)).2.tabs := by
    rw [htabs]
    exact List.mem_singleton.mpr rfl
  have hbi := h.1 _ hmem
  simp at hbi

/-- C2 (amended): at every state reachable from `initialize(n)` by complete
operations — slot creation, acquisition immediately paired with `startBridge`
on an unassigned call id (as the production flow performs them), release, and
health replacement — every slot satisfies `busy == (assignedCallId != null)`
and at most one slot is assigned to any call id; between `getAvailableTab`
and `startBridge` the biconditional is transiently violated. -/
theorem pool_reachable_inv (s : PoolState) (h : PoolReachable s) :
    PoolInv s ∧ PoolWF s := by
  induction h with
  | init n => exact initializePool_inv n
  | create hr ih => exact createTab_preserves _ ih
  | allocate c hr hfresh ih => exact acquireStart_preserves _ c ih hfresh
  | release tid hr ih => exact releaseTab_preserves _ tid ih
  | replace tid hr ih => exact replaceTab_preserves _ tid ih

/-- C2 (witness): the invariant holds at the state reached from
`initialize(2)` by one complete allocation of call `"call1"`. -/
theorem pool_reachable_inv_witness :
    PoolInv (acquireStart (initializePool 2) "call1") ∧
      PoolWF (acquireStart (initializePool 2) "call1") :=
  pool_reachable_inv _ (PoolReachable.allocate "call1" (PoolReachable.init 2) (by decide))

end BridgeV4
